import Mathlib

/-!
Shallow embedding of `x/peggy/types/ethereum.go` (umee peggy module).

Go strings and byte slices are modelled as `List Nat` of byte values;
`sdk.Int` (arbitrary-precision integer) is modelled as `Int`.

The file embeds, in order:
* the go-ethereum `common` address helpers the source calls
  (`IsHexAddress`, `HexToAddress`, `BytesToAddress`, `Address.Hex` with its
  EIP-55 checksum, hence an executable Keccak-256);
* the cosmos-sdk coin surface the source calls, modelled from the spec
  (construction from denom and amount, `IsValid`, `IsPositive`);
* the functions of `ethereum.go` itself.
-/

namespace Peggy

/-- Byte values of an ASCII Lean string literal (Go strings are byte strings). -/
def bytesOfString (s : String) : List Nat :=
  s.data.map Char.toNat

/-! ### Keccak-256 (legacy Keccak as used by go-ethereum's `Hex` checksum)

State is 25 lanes of 64 bits, lane `(x, y)` stored at index `x + 5 * y`.
All lane arithmetic is `Nat` reduced mod `2 ^ 64`. -/

/-- Left-rotation of a 64-bit lane by `n` bits (`0 ≤ n < 64`). -/
def rotL64 (x n : Nat) : Nat :=
  Nat.lor ((x <<< n) % 2 ^ 64) (x >>> (64 - n))

/-- The 24 round constants of keccak-f[1600], four per row. -/
def keccakRC : List Nat :=
  [[0x0000000000000001, 0x0000000000008082, 0x800000000000808A, 0x8000000080008000],
   [0x000000000000808B, 0x0000000080000001, 0x8000000080008081, 0x8000000000008009],
   [0x000000000000008A, 0x0000000000000088, 0x0000000080008009, 0x000000008000000A],
   [0x000000008000808B, 0x800000000000008B, 0x8000000000008089, 0x8000000000008003],
   [0x8000000000008002, 0x8000000000000080, 0x000000000000800A, 0x800000008000000A],
   [0x8000000080008081, 0x8000000000008080, 0x0000000080000001, 0x8000000080008008]].flatten

/-- The ρ rotation offsets, indexed `x + 5 * y`, one row per `y`. -/
def keccakRho : List Nat :=
  [[0, 1, 62, 28, 27],
   [36, 44, 6, 55, 20],
   [3, 10, 43, 25, 39],
   [41, 45, 15, 21, 8],
   [18, 2, 61, 56, 14]].flatten

/-- θ step of keccak-f. -/
def keccakTheta (s : List Nat) : List Nat :=
  let col := (List.range 5).map fun x =>
    Nat.xor (Nat.xor (Nat.xor (Nat.xor (s.getD x 0) (s.getD (x + 5) 0)) (s.getD (x + 10) 0))
      (s.getD (x + 15) 0)) (s.getD (x + 20) 0)
  (List.range 25).map fun i =>
    let x := i % 5
    Nat.xor (s.getD i 0) (Nat.xor (col.getD ((x + 4) % 5) 0) (rotL64 (col.getD ((x + 1) % 5) 0) 1))

/-- Combined ρ and π steps: the lane at `(x, y)` comes from `((x + 3y) % 5, x)`,
rotated by its ρ offset. -/
def keccakRhoPi (s : List Nat) : List Nat :=
  (List.range 25).map fun i =>
    let x := i % 5
    let y := i / 5
    let sx := (x + 3 * y) % 5
    let sy := x
    rotL64 (s.getD (sx + 5 * sy) 0) (keccakRho.getD (sx + 5 * sy) 0)

/-- χ step of keccak-f. -/
def keccakChi (s : List Nat) : List Nat :=
  (List.range 25).map fun i =>
    let x := i % 5
    let y := i / 5
    Nat.xor (s.getD i 0)
      (Nat.land (Nat.xor (s.getD ((x + 1) % 5 + 5 * y) 0) (2 ^ 64 - 1))
        (s.getD ((x + 2) % 5 + 5 * y) 0))

/-- One keccak-f round: θ, ρπ, χ, then ι with round constant `rc`. -/
def keccakRound (s : List Nat) (rc : Nat) : List Nat :=
  let t := keccakChi (keccakRhoPi (keccakTheta s))
  Nat.xor (t.getD 0 0) rc :: t.drop 1

/-- The keccak-f[1600] permutation: 24 rounds. -/
def keccakF (s : List Nat) : List Nat :=
  keccakRC.foldl keccakRound s

/-- A little-endian lane from up to 8 bytes. -/
def laneOfBytes (b : List Nat) : Nat :=
  b.foldr (fun byte acc => acc * 256 + byte) 0

/-- Split a byte list into chunks of `n + 1` bytes (the last may be shorter). -/
def chunksOf (n : Nat) : List Nat → List (List Nat)
  | [] => []
  | b :: bs => (b :: bs.take n) :: chunksOf n (bs.drop n)
  termination_by l => l.length
  decreasing_by simp [List.length_drop]; omega

/-- Bytes of a block as 64-bit lanes (little-endian within each lane). -/
def toLanes (bs : List Nat) : List Nat :=
  (chunksOf 7 bs).map laneOfBytes

/-- XOR the lanes of a rate block into the state. -/
def xorInto (s lanes : List Nat) : List Nat :=
  (List.range 25).map fun i => Nat.xor (s.getD i 0) (lanes.getD i 0)

/-- Legacy Keccak multi-rate padding for rate 136: append `0x01`, zeros, `0x80`
(a single `0x81` byte when only one byte of padding is needed). -/
def keccakPad (msg : List Nat) : List Nat :=
  let padLen := 136 - msg.length % 136
  if padLen = 1 then msg ++ [0x81]
  else msg ++ [0x01] ++ List.replicate (padLen - 2) 0 ++ [0x80]

/-- Little-endian bytes of a 64-bit lane. -/
def laneBytes (l : Nat) : List Nat :=
  (List.range 8).map fun k => l / 256 ^ k % 256

/-- Keccak-256 digest (32 bytes) of a byte string. -/
def keccak256 (msg : List Nat) : List Nat :=
  let s := ((chunksOf 135 (keccakPad msg)).foldl
    (fun st block => keccakF (xorInto st (toLanes block))) (List.replicate 25 0))
  laneBytes (s.getD 0 0) ++ laneBytes (s.getD 1 0) ++ laneBytes (s.getD 2 0) ++
    laneBytes (s.getD 3 0)

/-! ### go-ethereum `common` address helpers (called by the source file) -/

/-- `common.AddressLength`: addresses are 20 bytes. -/
def AddressLength : Nat := 20

/-- `common.Address`: a fixed 20-byte value. -/
structure Address where
  bytes : List Nat
deriving DecidableEq, Repr

/-- `common.has0xPrefix`: the string starts with `0x` or `0X`. -/
def has0xPrefix (s : List Nat) : Bool :=
  match s with
  | c0 :: c1 :: _ => c0 == 48 && (c1 == 120 || c1 == 88)
  | _ => false

/-- `common.isHexCharacter`: `0-9`, `a-f` or `A-F`. -/
def isHexCharacter (c : Nat) : Bool :=
  (48 ≤ c && c ≤ 57) || (97 ≤ c && c ≤ 102) || (65 ≤ c && c ≤ 70)

/-- `common.isHex`: even length, all hex characters. -/
def isHex (s : List Nat) : Bool :=
  s.length % 2 == 0 && s.all isHexCharacter

/-- `common.IsHexAddress`: after an optional `0x`/`0X`, exactly 40 hex characters. -/
def IsHexAddress (s : List Nat) : Bool :=
  let t := if has0xPrefix s then s.drop 2 else s
  t.length == 2 * AddressLength && isHex t

/-- Value of a hex digit character (as `encoding/hex.fromHexChar`; meaningful
only on hex characters). -/
def hexDigitVal (c : Nat) : Nat :=
  if c ≤ 57 then c - 48 else if 97 ≤ c then c - 87 else c - 55

/-- `encoding/hex.DecodeString`'s behaviour as used by `common.Hex2Bytes`:
decode byte pairs until the first invalid character; the error is dropped and
the bytes decoded so far are returned. -/
def hexDecodePairs : List Nat → List Nat
  | c1 :: c2 :: rest =>
    if isHexCharacter c1 && isHexCharacter c2 then
      (hexDigitVal c1 * 16 + hexDigitVal c2) :: hexDecodePairs rest
    else []
  | _ => []

/-- `common.FromHex`: strip an optional `0x`/`0X`, left-pad odd-length input
with `0`, then best-effort hex decode. -/
def FromHex (s : List Nat) : List Nat :=
  let s1 := if has0xPrefix s then s.drop 2 else s
  let s2 := if s1.length % 2 == 1 then 48 :: s1 else s1
  hexDecodePairs s2

/-- `common.Address.SetBytes`: keep the last 20 bytes if longer, left-pad with
zero bytes if shorter. -/
def setBytes (b : List Nat) : List Nat :=
  if AddressLength < b.length then b.drop (b.length - AddressLength)
  else List.replicate (AddressLength - b.length) 0 ++ b

/-- `common.BytesToAddress`. -/
def BytesToAddress (b : List Nat) : Address :=
  ⟨setBytes b⟩

/-- `common.HexToAddress`: lossy parse of an arbitrary string to an address. -/
def HexToAddress (s : List Nat) : Address :=
  BytesToAddress (FromHex s)

/-- `common.Address.Bytes`. -/
def Address.Bytes (a : Address) : List Nat :=
  a.bytes

/-- Lower-case hex digit character of a nibble. -/
def hexLowerChar (n : Nat) : Nat :=
  if n < 10 then 48 + n else 87 + n

/-- Two lower-case hex characters of a byte. -/
def byteHexLower (b : Nat) : List Nat :=
  [hexLowerChar (b / 16), hexLowerChar (b % 16)]

/-- `hex.EncodeToString` / `%x` formatting: lower-case hex of a byte string. -/
def hexLower (bs : List Nat) : List Nat :=
  (bs.map byteHexLower).flatten

/-- The EIP-55 checksum loop of `common.Address.Hex`: upper-case the hex
character at position `i` when it is a letter and nibble `i` of the hash is
at least 8. -/
def applyChecksum (hash : List Nat) : Nat → List Nat → List Nat
  | _, [] => []
  | i, c :: rest =>
    let hashByte := hash.getD (i / 2) 0
    let nib := if i % 2 == 0 then hashByte / 16 else hashByte % 16
    (if 57 < c && 7 < nib then c - 32 else c) :: applyChecksum hash (i + 1) rest

/-- `common.Address.Hex`: `0x` followed by the EIP-55 checksummed hex of the
20 address bytes (checksum from the Keccak-256 of the lower-case hex). -/
def Address.Hex (a : Address) : List Nat :=
  let unchecksummed := hexLower a.bytes
  bytesOfString "0x" ++ applyChecksum (keccak256 unchecksummed) 0 unchecksummed

/-! ### cosmos-sdk coin surface, modelled from the spec

The cosmos-sdk is outside the repository's files; the spec treats it as a
collaborator exposing "a generic native coin abstraction exposing
`IsValid() -> bool`, `IsPositive() -> bool`, and construction from
(denomination string, arbitrary-precision amount)". -/

/-- Modelled from the spec: a native coin is a (denomination, amount) pair. -/
structure Coin where
  Denom : List Nat
  Amount : Int
deriving DecidableEq, Repr

/-- Modelled from the spec: coin construction from a denomination string and an
arbitrary-precision amount. -/
def NewCoin (denom : List Nat) (amount : Int) : Coin :=
  { Denom := denom, Amount := amount }

/-- First character of the coin-denom grammar: a letter. -/
def denomHead (c : Nat) : Bool :=
  (65 ≤ c && c ≤ 90) || (97 ≤ c && c ≤ 122)

/-- Later characters of the coin-denom grammar: letters, digits, `/:._-`. -/
def denomRest (c : Nat) : Bool :=
  denomHead c || (48 ≤ c && c ≤ 57) || c == 47 || c == 58 || c == 46 || c == 95 || c == 45

/-- Modelled from the spec: the coin-denom grammar — a letter followed by 2 to
127 characters drawn from letters, digits and `/:._-`. -/
def ValidDenom : List Nat → Bool
  | [] => false
  | c :: rest => denomHead c && rest.all denomRest && 2 ≤ rest.length && rest.length ≤ 127

/-- Modelled from the spec: a coin is valid when its denomination satisfies the
coin-denom grammar and its amount is non-negative. -/
def Coin.IsValid (c : Coin) : Bool :=
  ValidDenom c.Denom && decide (0 ≤ c.Amount)

/-- Modelled from the spec: a coin is positive when its amount is strictly
positive. -/
def Coin.IsPositive (c : Coin) : Bool :=
  decide (0 < c.Amount)

/-- `sdk.Int.IsUint64` (via `big.Int.IsUint64`): the value fits an unsigned
64-bit integer. -/
def intIsUint64 (i : Int) : Bool :=
  decide (0 ≤ i) && decide (i < 2 ^ 64)

/-! ### `x/peggy/types/ethereum.go` -/

/-- Modelled from the spec: `ModuleName`, the fixed module identifier constant
(declared elsewhere in the repository), the name of the peggy module. -/
def ModuleName : List Nat :=
  bytesOfString "peggy"

/-- `PeggyDenomPrefix`: the prefix for all assets minted by this module. -/
def PeggyDenomPrefix : List Nat :=
  ModuleName

/-- `PeggyDenomSeparator`: the separator for peggy denoms (empty). -/
def PeggyDenomSeparator : List Nat :=
  []

/-- `ETHContractAddressLen`: length of contract address bytes. -/
def ETHContractAddressLen : Nat := 20

/-- `PeggyDenomLen`: length of the denoms generated by the peggy module. -/
def PeggyDenomLen : Nat :=
  PeggyDenomPrefix.length + PeggyDenomSeparator.length + ETHContractAddressLen

/-- `bytes.Compare`: three-way byte-lexicographic comparison, `-1`, `0` or `1`. -/
def bytesCompare : List Nat → List Nat → Int
  | [], [] => 0
  | [], _ :: _ => -1
  | _ :: _, [] => 1
  | a :: as, b :: bs => if a < b then -1 else if b < a then 1 else bytesCompare as bs

/-- `EthAddrLessThan`: the Ethereum address less-than function. -/
def EthAddrLessThan (e o : List Nat) : Bool :=
  bytesCompare e o == -1

/-- The distinct error-return sites of the source, one constructor each. -/
inductive PeggyErr where
  /-- `fmt.Errorf("empty Ethereum address")` -/
  | emptyAddress : PeggyErr
  /-- `fmt.Errorf("%s is not a valid Ethereum address", address)` -/
  | malformedAddress (address : List Nat) : PeggyErr
  /-- `errors.Errorf("denom ... byte prefix not equal to expected ...")` -/
  | prefixMismatch (denom : List Nat) : PeggyErr
  /-- `errors.Errorf("failed to validate Ethereum address bytes: %x", ...)` -/
  | badAddressLength (addressBytes : List Nat) : PeggyErr
  /-- `sdkerrors.Wrap(err, "ethereum address")` -/
  | wrapEthereumAddress (inner : PeggyErr) : PeggyErr
  /-- `sdkerrors.Wrap(sdkerrors.ErrInvalidCoins, e.PeggyCoin().String())` -/
  | invalidCoins (coin : Coin) : PeggyErr
  /-- `errors.New("invalid contract address")` -/
  | invalidContract : PeggyErr
  /-- `errors.New("invalid amount")` -/
  | invalidAmount : PeggyErr
deriving DecidableEq, Repr

/-- The `Error()` text of an error, as the source formats it (`%x` renders
bytes as lower-case hex). Only the two denomination-decode errors are ever
rendered by the source (inside `PeggyDenom.String`). -/
def errText : PeggyErr → List Nat
  | .emptyAddress => bytesOfString "empty Ethereum address"
  | .malformedAddress address => address ++ bytesOfString " is not a valid Ethereum address"
  | .prefixMismatch denom =>
    bytesOfString "denom \x27" ++ hexLower denom ++
      bytesOfString "\x27 byte prefix not equal to expected \x27" ++
      hexLower (PeggyDenomPrefix ++ PeggyDenomSeparator) ++ bytesOfString "\x27"
  | .badAddressLength addressBytes =>
    bytesOfString "failed to validate Ethereum address bytes: " ++ hexLower addressBytes
  | .wrapEthereumAddress inner => bytesOfString "ethereum address: " ++ errText inner
  | .invalidCoins _ => bytesOfString "invalid coins"
  | .invalidContract => bytesOfString "invalid contract address"
  | .invalidAmount => bytesOfString "invalid amount"

/-- `ValidateEthAddress`: validates an Ethereum address string. -/
def ValidateEthAddress (address : List Nat) : Except PeggyErr Unit :=
  if address = [] then .error .emptyAddress
  else if !IsHexAddress address then .error (.malformedAddress address)
  else .ok ()

/-- `ERC20Token`: an amount (`sdk.Int`) paired with a contract address string. -/
structure ERC20Token where
  Amount : Int
  Contract : List Nat
deriving DecidableEq, Repr

/-- `NewERC20Token`: build a token from a `uint64` amount; the contract is
stored in its checksummed hex rendering. -/
def NewERC20Token (amount : Nat) (contract : Address) : ERC20Token :=
  { Amount := (amount : Int), Contract := contract.Hex }

/-- `NewSDKIntERC20Token`: build a token from an `sdk.Int` amount. -/
def NewSDKIntERC20Token (amount : Int) (contract : Address) : ERC20Token :=
  { Amount := amount, Contract := contract.Hex }

/-- `PeggyDenomString`: the human-readable denom string
`PREFIX || SEPARATOR || addr.Hex()`. -/
def PeggyDenomString (tokenContract : Address) : List Nat :=
  PeggyDenomPrefix ++ PeggyDenomSeparator ++ tokenContract.Hex

/-- `ERC20Token.PeggyCoin`: the peggy coin representation of the token. -/
def ERC20Token.PeggyCoin (e : ERC20Token) : Coin :=
  NewCoin (PeggyDenomString (HexToAddress e.Contract)) e.Amount

/-- `type PeggyDenom []byte`. -/
abbrev PeggyDenom := List Nat

/-- `PeggyDenom.TokenContract`: strict structural decode of a denom byte
string into its contract address. -/
def PeggyDenom.TokenContract (p : PeggyDenom) : Except PeggyErr Address :=
  let fullPrefix := PeggyDenomPrefix ++ PeggyDenomSeparator
  if !fullPrefix.isPrefixOf p then .error (.prefixMismatch p)
  else
    let addressBytes := p.drop fullPrefix.length
    if addressBytes.length ≠ ETHContractAddressLen then .error (.badAddressLength addressBytes)
    else .ok (BytesToAddress addressBytes)

/-- `PeggyDenom.String`: render the denom; on decode failure degrade to the
diagnostic placeholder `%x(error: %s)` instead of failing. -/
def PeggyDenom.String (p : PeggyDenom) : List Nat :=
  match PeggyDenom.TokenContract p with
  | .error err => hexLower p ++ bytesOfString "(error: " ++ errText err ++ bytesOfString ")"
  | .ok contractAddress => PeggyDenomString contractAddress

/-- `NewPeggyDenom`: `PREFIX || SEPARATOR || addr.Bytes()`. -/
def NewPeggyDenom (tokenContract : Address) : PeggyDenom :=
  PeggyDenomPrefix ++ PeggyDenomSeparator ++ tokenContract.Bytes

/-- `NewPeggyDenomFromString`: decode a denom string (hex-suffixed form),
re-encoding the parsed address into byte form. -/
def NewPeggyDenomFromString (denom : List Nat) : Except PeggyErr PeggyDenom :=
  let fullPrefix := PeggyDenomPrefix ++ PeggyDenomSeparator
  if !fullPrefix.isPrefixOf denom then .error (.prefixMismatch denom)
  else
    let addressHex := denom.drop fullPrefix.length
    match ValidateEthAddress addressHex with
    | .error err => .error err
    | .ok _ => .ok (NewPeggyDenom (HexToAddress addressHex))

/-- `ERC20Token.ValidateBasic`: stateless validation. -/
def ERC20Token.ValidateBasic (e : ERC20Token) : Except PeggyErr Unit :=
  match ValidateEthAddress e.Contract with
  | .error err => .error (.wrapEthereumAddress err)
  | .ok _ =>
    if !e.PeggyCoin.IsValid then .error (.invalidCoins e.PeggyCoin)
    else if !e.PeggyCoin.IsPositive then .error (.invalidCoins e.PeggyCoin)
    else .ok ()

/-- `ERC20Token.Add`: add two tokens; the contract strings must agree and the
sum must fit an unsigned 64-bit integer. -/
def ERC20Token.Add (e o : ERC20Token) : Except PeggyErr ERC20Token :=
  if e.Contract ≠ o.Contract then .error .invalidContract
  else
    let sum := e.Amount + o.Amount
    if !intIsUint64 sum then .error .invalidAmount
    else .ok (NewERC20Token sum.toNat (HexToAddress e.Contract))

deriving instance DecidableEq for Except

/-- A character of a lower-case hex rendering: a digit or `a`-`f`. -/
def IsLowerHex (c : Nat) : Prop :=
  (48 ≤ c ∧ c ≤ 57) ∨ (97 ≤ c ∧ c ≤ 102)

/-! ### Helper lemmas on the hex encoding and the EIP-55 checksum -/

theorem isLowerHex_hexLowerChar {n : Nat} (h : n < 16) : IsLowerHex (hexLowerChar n) := by
  unfold hexLowerChar IsLowerHex
  split <;> omega

theorem hexDigitVal_hexLowerChar {n : Nat} (h : n < 16) : hexDigitVal (hexLowerChar n) = n := by
  simp only [hexLowerChar, hexDigitVal]
  split_ifs <;> omega

theorem isHexCharacter_of_isLowerHex {c : Nat} (h : IsLowerHex c) : isHexCharacter c = true := by
  unfold IsLowerHex at h
  simp only [isHexCharacter, Bool.or_eq_true, Bool.and_eq_true, decide_eq_true_eq]
  omega

theorem hexDigitVal_lt_of_isHexCharacter {c : Nat} (h : isHexCharacter c = true) :
    hexDigitVal c < 16 := by
  simp only [isHexCharacter, Bool.or_eq_true, Bool.and_eq_true, decide_eq_true_eq] at h
  unfold hexDigitVal
  split <;> [omega; split <;> omega]

theorem hexLower_cons (b : Nat) (bs : List Nat) :
    hexLower (b :: bs) = hexLowerChar (b / 16) :: hexLowerChar (b % 16) :: hexLower bs := by
  simp [hexLower, byteHexLower]

theorem hexLower_length (bs : List Nat) : (hexLower bs).length = 2 * bs.length := by
  induction bs with
  | nil => rfl
  | cons b bs ih => rw [hexLower_cons]; simp [ih]; omega

theorem isLowerHex_of_mem_hexLower {bs : List Nat} (hb : ∀ b ∈ bs, b < 256) :
    ∀ c ∈ hexLower bs, IsLowerHex c := by
  induction bs with
  | nil => intro c hc; simp [hexLower] at hc
  | cons b bs ih =>
    have hblt : b < 256 := hb b (by simp)
    intro c hc
    rw [hexLower_cons] at hc
    simp only [List.mem_cons] at hc
    rcases hc with hc | hc | hc
    · exact hc ▸ isLowerHex_hexLowerChar (by omega)
    · exact hc ▸ isLowerHex_hexLowerChar (by omega)
    · exact ih (fun x hx => hb x (by simp [hx])) c hc

theorem hexDecodePairs_cons_cons {c1 c2 : Nat} (h1 : isHexCharacter c1 = true)
    (h2 : isHexCharacter c2 = true) (rest : List Nat) :
    hexDecodePairs (c1 :: c2 :: rest) =
      (hexDigitVal c1 * 16 + hexDigitVal c2) :: hexDecodePairs rest := by
  conv_lhs => unfold hexDecodePairs
  rw [h1, h2]
  simp

theorem hexDecodePairs_hexLower {bs : List Nat} (hb : ∀ b ∈ bs, b < 256) :
    hexDecodePairs (hexLower bs) = bs := by
  induction bs with
  | nil => rfl
  | cons b bs ih =>
    have hblt : b < 256 := hb b (by simp)
    have h1 : IsLowerHex (hexLowerChar (b / 16)) := isLowerHex_hexLowerChar (by omega)
    have h2 : IsLowerHex (hexLowerChar (b % 16)) := isLowerHex_hexLowerChar (by omega)
    rw [hexLower_cons,
      hexDecodePairs_cons_cons (isHexCharacter_of_isLowerHex h1) (isHexCharacter_of_isLowerHex h2),
      hexDigitVal_hexLowerChar (show b / 16 < 16 by omega),
      hexDigitVal_hexLowerChar (show b % 16 < 16 by omega),
      ih (fun x hx => hb x (by simp [hx]))]
    congr 1
    omega

/-- The character the checksum loop emits keeps its hex-character status and
its hex value. -/
theorem checksum_char_spec {c : Nat} (nib : Nat) (h : IsLowerHex c) :
    isHexCharacter (if 57 < c && 7 < nib then c - 32 else c) = true ∧
      hexDigitVal (if 57 < c && 7 < nib then c - 32 else c) = hexDigitVal c := by
  unfold IsLowerHex at h
  by_cases hc : (57 < c && 7 < nib) = true
  · rw [if_pos hc]
    simp only [Bool.and_eq_true, decide_eq_true_eq] at hc
    constructor
    · simp only [isHexCharacter, Bool.or_eq_true, Bool.and_eq_true, decide_eq_true_eq]
      omega
    · simp only [hexDigitVal]
      split_ifs <;> omega
  · rw [if_neg hc]
    exact ⟨isHexCharacter_of_isLowerHex h, rfl⟩

theorem applyChecksum_length (hash : List Nat) :
    ∀ (i : Nat) (l : List Nat), (applyChecksum hash i l).length = l.length
  | _, [] => rfl
  | i, c :: rest => by
    unfold applyChecksum
    simpa using applyChecksum_length hash (i + 1) rest

theorem isHexCharacter_of_mem_applyChecksum (hash : List Nat) :
    ∀ (i : Nat) (l : List Nat), (∀ c ∈ l, IsLowerHex c) →
      ∀ c ∈ applyChecksum hash i l, isHexCharacter c = true
  | _, [], _ => by intro c hc; simp [applyChecksum] at hc
  | i, c0 :: rest, h => by
    intro c hc
    unfold applyChecksum at hc
    simp only [List.mem_cons] at hc
    rcases hc with hc | hc
    · subst hc
      exact (checksum_char_spec _ (h c0 (by simp))).1
    · exact isHexCharacter_of_mem_applyChecksum hash (i + 1) rest
        (fun x hx => h x (by simp [hx])) c hc

theorem hexDecodePairs_applyChecksum (hash : List Nat) :
    ∀ (i : Nat) (l : List Nat), (∀ c ∈ l, IsLowerHex c) →
      hexDecodePairs (applyChecksum hash i l) = hexDecodePairs l
  | _, [], _ => rfl
  | _, [c], h => by
    unfold applyChecksum hexDecodePairs
    rfl
  | i, c1 :: c2 :: rest, h => by
    have h1 := checksum_char_spec (if i % 2 == 0 then hash.getD (i / 2) 0 / 16
      else hash.getD (i / 2) 0 % 16) (h c1 (by simp))
    have h2 := checksum_char_spec (if (i + 1) % 2 == 0 then hash.getD ((i + 1) / 2) 0 / 16
      else hash.getD ((i + 1) / 2) 0 % 16) (h c2 (by simp))
    have hc1 : isHexCharacter c1 = true :=
      isHexCharacter_of_isLowerHex (h c1 (by simp))
    have hc2 : isHexCharacter c2 = true :=
      isHexCharacter_of_isLowerHex (h c2 (by simp))
    unfold applyChecksum applyChecksum hexDecodePairs
    rw [h1.1, h2.1, h1.2, h2.2, hc1, hc2]
    simp only [Bool.and_self, ite_true]
    rw [hexDecodePairs_applyChecksum hash (i + 2) rest (fun x hx => h x (by simp [hx]))]

/-! ### Address-level lemmas -/

theorem setBytes_of_length {b : List Nat} (h : b.length = AddressLength) : setBytes b = b := by
  unfold setBytes
  rw [if_neg (by omega), h]
  simp

theorem setBytes_length (b : List Nat) : (setBytes b).length = AddressLength := by
  unfold setBytes
  split <;> simp <;> omega

theorem mem_setBytes {b : List Nat} {x : Nat} (hx : x ∈ setBytes b) : x ∈ b ∨ x = 0 := by
  unfold setBytes at hx
  split at hx
  · exact Or.inl (List.mem_of_mem_drop hx)
  · rcases List.mem_append.1 hx with h | h
    · exact Or.inr (List.eq_of_mem_replicate h)
    · exact Or.inl h

theorem mem_hexDecodePairs_lt :
    ∀ {l : List Nat} {x : Nat}, x ∈ hexDecodePairs l → x < 256
  | [], _, hx => by simp [hexDecodePairs] at hx
  | [c], _, hx => by simp [hexDecodePairs] at hx
  | c1 :: c2 :: rest, x, hx => by
    unfold hexDecodePairs at hx
    split at hx
    · rename_i hc
      simp only [Bool.and_eq_true] at hc
      simp only [List.mem_cons] at hx
      rcases hx with hx | hx
      · have v1 := hexDigitVal_lt_of_isHexCharacter hc.1
        have v2 := hexDigitVal_lt_of_isHexCharacter hc.2
        omega
      · exact mem_hexDecodePairs_lt hx
    · simp at hx

theorem hexToAddress_bytes_length (s : List Nat) :
    (HexToAddress s).bytes.length = AddressLength :=
  setBytes_length _

theorem hexToAddress_bytes_lt {s : List Nat} : ∀ x ∈ (HexToAddress s).bytes, x < 256 := by
  intro x hx
  rcases mem_setBytes hx with h | h
  · exact mem_hexDecodePairs_lt h
  · omega

theorem bytesOfString_0x : bytesOfString "0x" = [48, 120] := by decide

/-- The EIP-55 rendering of a well-formed 20-byte address parses back to the
same address: the checksum only changes letter case, which the hex decoder
ignores. -/
theorem hexToAddress_hex {a : Address} (h20 : a.bytes.length = AddressLength)
    (hlt : ∀ b ∈ a.bytes, b < 256) : HexToAddress a.Hex = a := by
  have hmem : ∀ c ∈ hexLower a.bytes, IsLowerHex c := isLowerHex_of_mem_hexLower hlt
  have hlen : (applyChecksum (keccak256 (hexLower a.bytes)) 0 (hexLower a.bytes)).length = 40 := by
    rw [applyChecksum_length, hexLower_length, h20]
    rfl
  unfold Address.Hex HexToAddress FromHex
  rw [bytesOfString_0x]
  have hpre : has0xPrefix
      (48 :: 120 :: applyChecksum (keccak256 (hexLower a.bytes)) 0 (hexLower a.bytes)) = true := by
    simp [has0xPrefix]
  simp only [List.cons_append, List.nil_append, hpre, if_true, List.drop_succ_cons,
    List.drop_zero, hlen]
  norm_num
  rw [hexDecodePairs_applyChecksum _ _ _ hmem, hexDecodePairs_hexLower hlt]
  unfold BytesToAddress
  rw [setBytes_of_length h20]

theorem hexToAddress_hex_hexToAddress (s : List Nat) :
    HexToAddress ((HexToAddress s).Hex) = HexToAddress s :=
  hexToAddress_hex (hexToAddress_bytes_length s) hexToAddress_bytes_lt

/-- The EIP-55 rendering of a well-formed 20-byte address is a valid hex
address string. -/
theorem isHexAddress_hex {a : Address} (h20 : a.bytes.length = AddressLength)
    (hlt : ∀ b ∈ a.bytes, b < 256) : IsHexAddress a.Hex = true := by
  have hmem : ∀ c ∈ hexLower a.bytes, IsLowerHex c := isLowerHex_of_mem_hexLower hlt
  have hlen : (applyChecksum (keccak256 (hexLower a.bytes)) 0 (hexLower a.bytes)).length = 40 := by
    rw [applyChecksum_length, hexLower_length, h20]
    rfl
  unfold Address.Hex IsHexAddress
  rw [bytesOfString_0x]
  have hpre : has0xPrefix
      (48 :: 120 :: applyChecksum (keccak256 (hexLower a.bytes)) 0 (hexLower a.bytes)) = true := by
    simp [has0xPrefix]
  simp only [List.cons_append, List.nil_append, hpre, if_true, List.drop_succ_cons,
    List.drop_zero, hlen, isHex, AddressLength]
  norm_num
  exact fun c hc => isHexCharacter_of_mem_applyChecksum _ _ _ hmem c hc

theorem validateEthAddress_hex {a : Address} (h20 : a.bytes.length = AddressLength)
    (hlt : ∀ b ∈ a.bytes, b < 256) : ValidateEthAddress a.Hex = .ok () := by
  unfold ValidateEthAddress
  rw [if_neg, if_neg]
  · rw [isHexAddress_hex h20 hlt]
    simp
  · unfold Address.Hex
    rw [bytesOfString_0x]
    simp

/-! ### Denomination-level lemmas -/

theorem fullPrefix_eq : PeggyDenomPrefix ++ PeggyDenomSeparator = [112, 101, 103, 103, 121] := by
  decide

theorem isPrefixOf_append_self (l t : List Nat) : l.isPrefixOf (l ++ t) = true := by
  rw [List.isPrefixOf_iff_prefix]
  exact List.prefix_append l t

/-- Decoding the byte denomination built from a 20-byte address returns that
address. -/
theorem tokenContract_newPeggyDenom {a : Address} (h20 : a.bytes.length = AddressLength) :
    PeggyDenom.TokenContract (NewPeggyDenom a) = .ok a := by
  have h1 : (PeggyDenomPrefix ++ PeggyDenomSeparator).isPrefixOf (NewPeggyDenom a) = true := by
    unfold NewPeggyDenom Address.Bytes
    exact isPrefixOf_append_self _ _
  have h2 : (NewPeggyDenom a).drop (PeggyDenomPrefix ++ PeggyDenomSeparator).length = a.bytes := by
    unfold NewPeggyDenom Address.Bytes
    exact List.drop_left _ _
  simp only [PeggyDenom.TokenContract, h1, h2, Bool.not_true, Bool.false_eq_true, if_false,
    h20, AddressLength, ETHContractAddressLen, ne_eq, not_true_eq_false, ite_false]
  unfold BytesToAddress
  rw [setBytes_of_length h20]

theorem denomRest_of_isHexCharacter {c : Nat} (h : isHexCharacter c = true) :
    denomRest c = true := by
  simp only [isHexCharacter, Bool.or_eq_true, Bool.and_eq_true, decide_eq_true_eq] at h
  simp only [denomRest, denomHead, Bool.or_eq_true, Bool.and_eq_true, decide_eq_true_eq,
    beq_iff_eq]
  omega

/-- The peggy denom string of a well-formed 20-byte address satisfies the
coin-denom grammar. -/
theorem validDenom_peggyDenomString {a : Address} (h20 : a.bytes.length = AddressLength)
    (hlt : ∀ b ∈ a.bytes, b < 256) : ValidDenom (PeggyDenomString a) = true := by
  have hmem : ∀ c ∈ hexLower a.bytes, IsLowerHex c := isLowerHex_of_mem_hexLower hlt
  have hhex : ∀ c ∈ applyChecksum (keccak256 (hexLower a.bytes)) 0 (hexLower a.bytes),
      isHexCharacter c = true := isHexCharacter_of_mem_applyChecksum _ _ _ hmem
  have hlen : (applyChecksum (keccak256 (hexLower a.bytes)) 0 (hexLower a.bytes)).length = 40 := by
    rw [applyChecksum_length, hexLower_length, h20]
    rfl
  unfold PeggyDenomString Address.Hex
  rw [bytesOfString_0x]
  have hpfx : PeggyDenomPrefix = [112, 101, 103, 103, 121] := by decide
  have hsep : PeggyDenomSeparator = ([] : List Nat) := by decide
  rw [hpfx, hsep]
  have hall : (applyChecksum (keccak256 (hexLower a.bytes)) 0 (hexLower a.bytes)).all
      denomRest = true := by
    rw [List.all_eq_true]
    exact fun c hc => denomRest_of_isHexCharacter (hhex c hc)
  simp only [List.nil_append, List.cons_append, ValidDenom, List.all_cons, List.length_cons,
    hall, hlen]
  decide

/-! ### `bytes.Compare` order lemmas -/

theorem bytesCompare_eq_lex :
    ∀ (a b : List Nat), bytesCompare a b = -1 ↔ List.Lex (· < ·) a b
  | [], [] => by
    constructor
    · intro h; exact absurd h (by decide)
    · intro h; cases h
  | [], b :: bs => ⟨fun _ => List.Lex.nil, fun _ => rfl⟩
  | a :: as, [] => by
    constructor
    · intro h; simp [bytesCompare] at h
    · intro h; cases h
  | a :: as, b :: bs => by
    unfold bytesCompare
    split_ifs with h1 h2
    · exact ⟨fun _ => List.Lex.rel h1, fun _ => rfl⟩
    · constructor
      · intro h; exact absurd h (by decide)
      · intro h
        exfalso
        cases h with
        | cons h => omega
        | rel h => omega
    · have hab : a = b := by omega
      subst hab
      rw [bytesCompare_eq_lex as bs]
      constructor
      · exact List.Lex.cons
      · intro h
        cases h with
        | cons h => exact h
        | rel h => omega

theorem bytesCompare_swap : ∀ (a b : List Nat), bytesCompare b a = -bytesCompare a b
  | [], [] => rfl
  | [], _ :: _ => rfl
  | _ :: _, [] => rfl
  | a :: as, b :: bs => by
    unfold bytesCompare
    split_ifs with h1 h2 h3 <;> first
      | rfl
      | omega
      | (rw [bytesCompare_swap as bs])

theorem bytesCompare_eq_zero : ∀ {a b : List Nat}, bytesCompare a b = 0 ↔ a = b
  | [], [] => by simp [bytesCompare]
  | [], _ :: _ => by simp [bytesCompare]
  | _ :: _, [] => by simp [bytesCompare]
  | a :: as, b :: bs => by
    unfold bytesCompare
    split_ifs with h1 h2
    · simp only [List.cons.injEq]
      constructor
      · intro h; exact absurd h (by decide)
      · intro h; exact absurd h.1 (by omega)
    · simp only [List.cons.injEq]
      constructor
      · intro h; exact absurd h (by decide)
      · intro h; exact absurd h.1 (by omega)
    · have hab : a = b := by omega
      subst hab
      rw [bytesCompare_eq_zero (a := as) (b := bs)]
      simp

theorem bytesCompare_cases (a b : List Nat) :
    bytesCompare a b = -1 ∨ bytesCompare a b = 0 ∨ bytesCompare a b = 1 := by
  induction a generalizing b with
  | nil => cases b <;> simp [bytesCompare]
  | cons x as ih =>
    cases b with
    | nil => simp [bytesCompare]
    | cons y bs =>
      unfold bytesCompare
      split_ifs <;> simp [ih]

theorem ethAddrLessThan_iff {a b : List Nat} :
    EthAddrLessThan a b = true ↔ bytesCompare a b = -1 := by
  simp [EthAddrLessThan]

/-! ### The claims -/

/-- C1: for every valid 20-byte foreign contract address `a`, decoding the
denomination produced by encoding `a` returns `a` again:
`TokenContract (NewPeggyDenom a)` succeeds and yields exactly `a`. -/
theorem c1_denom_byte_roundtrip (a : Address) (h : a.bytes.length = 20) :
    PeggyDenom.TokenContract (NewPeggyDenom a) = .ok a :=
  tokenContract_newPeggyDenom h

/-- Witness for C1 at the concrete 20-byte address `7, 7, ..., 7`. -/
theorem c1_denom_byte_roundtrip_witness :
    (BytesToAddress (List.replicate 20 7)).bytes.length = 20 ∧
      PeggyDenom.TokenContract (NewPeggyDenom (BytesToAddress (List.replicate 20 7))) =
        .ok (BytesToAddress (List.replicate 20 7)) :=
  ⟨by decide, c1_denom_byte_roundtrip _ (by decide)⟩

/-- C2: `Add` on byte-for-byte equal contract strings whose amounts sum to a
value representable in an unsigned 64-bit integer returns a new token with the
summed amount and the shared address (the stored contract is the canonical
rendering of that address and parses back to the very same address); on
different contract strings it fails with the mismatched-contract error; on a
sum at or above `2 ^ 64` it fails with the overflow error. Operands are
immutable values of the embedding, so neither is mutated. -/
theorem c2_add_behaviour (e o : ERC20Token) :
    (e.Contract = o.Contract → 0 ≤ e.Amount + o.Amount → e.Amount + o.Amount < 2 ^ 64 →
      ERC20Token.Add e o =
          .ok { Amount := e.Amount + o.Amount, Contract := (HexToAddress e.Contract).Hex } ∧
        HexToAddress ((HexToAddress e.Contract).Hex) = HexToAddress e.Contract) ∧
    (e.Contract ≠ o.Contract → ERC20Token.Add e o = .error .invalidContract) ∧
    (e.Contract = o.Contract → 2 ^ 64 ≤ e.Amount + o.Amount →
      ERC20Token.Add e o = .error .invalidAmount) := by
  refine ⟨?_, ?_, ?_⟩
  · intro hc h0 hlt
    refine ⟨?_, hexToAddress_hex_hexToAddress e.Contract⟩
    have hu : intIsUint64 (e.Amount + o.Amount) = true := by
      simp only [intIsUint64, Bool.and_eq_true, decide_eq_true_eq]
      exact ⟨h0, hlt⟩
    simp only [ERC20Token.Add]
    rw [if_neg (not_not_intro hc), if_neg (by rw [hu]; simp)]
    unfold NewERC20Token
    rw [Int.toNat_of_nonneg h0]
  · intro hc
    simp only [ERC20Token.Add]
    rw [if_pos hc]
  · intro hc hge
    have hu : intIsUint64 (e.Amount + o.Amount) = false := by
      simp only [intIsUint64, Bool.and_eq_false_iff, decide_eq_false_iff_not, not_le, not_lt]
      right
      exact hge
    simp only [ERC20Token.Add]
    rw [if_neg (not_not_intro hc), if_pos (by rw [hu]; rfl)]

/-- Witness for C2: amounts 5 and 7 on a shared contract yield 12; differing
contracts fail; a sum beyond `2 ^ 64 - 1` fails. -/
theorem c2_add_behaviour_witness :
    ERC20Token.Add ⟨5, bytesOfString "c"⟩ ⟨7, bytesOfString "c"⟩ =
        .ok { Amount := 12, Contract := (HexToAddress (bytesOfString "c")).Hex } ∧
      ERC20Token.Add ⟨5, bytesOfString "c"⟩ ⟨7, bytesOfString "d"⟩ = .error .invalidContract ∧
      ERC20Token.Add ⟨2 ^ 64, bytesOfString "c"⟩ ⟨1, bytesOfString "c"⟩ =
        .error .invalidAmount :=
  ⟨((c2_add_behaviour ⟨5, bytesOfString "c"⟩ ⟨7, bytesOfString "c"⟩).1 rfl (by decide)
      (by decide)).1,
    (c2_add_behaviour ⟨5, bytesOfString "c"⟩ ⟨7, bytesOfString "d"⟩).2.1 (by decide),
    (c2_add_behaviour ⟨2 ^ 64, bytesOfString "c"⟩ ⟨1, bytesOfString "c"⟩).2.2 rfl (by decide)⟩

/-- C3: every fallible operation of the embedding returns an explicit
`Except` value — `PeggyCoin` is total (it yields a definite coin for every
token, even one with a negative amount or a malformed contract string, the
contract going through the lossy hex parse), `ValidateBasic` always returns
either `ok` or an `error` value — and the one exception to explicit failure,
`PeggyDenom.String`, degrades on decode failure to the diagnostic placeholder
embedding the raw bytes and the error text. -/
theorem c3_errors_explicit (e : ERC20Token) (p : PeggyDenom) (err : PeggyErr) :
    ERC20Token.PeggyCoin e = NewCoin (PeggyDenomString (HexToAddress e.Contract)) e.Amount ∧
    (ERC20Token.ValidateBasic e = .ok () ∨ ∃ er, ERC20Token.ValidateBasic e = .error er) ∧
    (PeggyDenom.TokenContract p = .error err →
      PeggyDenom.String p =
        hexLower p ++ bytesOfString "(error: " ++ errText err ++ bytesOfString ")") := by
  refine ⟨rfl, ?_, ?_⟩
  · cases ERC20Token.ValidateBasic e with
    | ok u => cases u; exact Or.inl rfl
    | error er => exact Or.inr ⟨er, rfl⟩
  · intro hp
    unfold PeggyDenom.String
    rw [hp]

/-- Witness for C3 at a denomination with a wrong prefix (the token and error
arguments instantiated concretely as well). -/
theorem c3_errors_explicit_witness :
    PeggyDenom.TokenContract (bytesOfString "bad") =
        .error (.prefixMismatch (bytesOfString "bad")) ∧
      PeggyDenom.String (bytesOfString "bad") =
        hexLower (bytesOfString "bad") ++ bytesOfString "(error: " ++
          errText (.prefixMismatch (bytesOfString "bad")) ++ bytesOfString ")" :=
  ⟨by decide,
    (c3_errors_explicit ⟨-5, bytesOfString "zz"⟩ (bytesOfString "bad")
      (.prefixMismatch (bytesOfString "bad"))).2.2 (by decide)⟩

/-- C4: `TokenContract` fails with the prefix-mismatch error whenever the
input does not begin with `PREFIX || SEPARATOR` — in particular whenever the
input is shorter than that prefix — and fails with the bad-address-length
error when it is correctly prefixed but the remainder is not exactly 20
bytes. -/
theorem c4_tokenContract_rejection (d : List Nat) :
    ((PeggyDenomPrefix ++ PeggyDenomSeparator).isPrefixOf d = false →
      PeggyDenom.TokenContract d = .error (.prefixMismatch d)) ∧
    (d.length < (PeggyDenomPrefix ++ PeggyDenomSeparator).length →
      PeggyDenom.TokenContract d = .error (.prefixMismatch d)) ∧
    ((PeggyDenomPrefix ++ PeggyDenomSeparator).isPrefixOf d = true →
      (d.drop (PeggyDenomPrefix ++ PeggyDenomSeparator).length).length ≠ ETHContractAddressLen →
      PeggyDenom.TokenContract d =
        .error (.badAddressLength (d.drop (PeggyDenomPrefix ++ PeggyDenomSeparator).length))) := by
  have h1 : (PeggyDenomPrefix ++ PeggyDenomSeparator).isPrefixOf d = false →
      PeggyDenom.TokenContract d = .error (.prefixMismatch d) := by
    intro h
    simp only [PeggyDenom.TokenContract, h, Bool.not_false, if_true, ite_true]
  refine ⟨h1, ?_, ?_⟩
  · intro hlen
    refine h1 ?_
    rw [← Bool.not_eq_true, List.isPrefixOf_iff_prefix]
    intro hpre
    exact absurd (List.IsPrefix.length_le hpre) (by omega)
  · intro hpre hlen
    simp only [PeggyDenom.TokenContract, hpre, Bool.not_true, Bool.false_eq_true, if_false,
      ite_false, hlen, ne_eq, not_false_eq_true, if_true, ite_true]

/-- Witness for C4: a 3-byte input (shorter than the prefix) and a correctly
prefixed input with 19 trailing bytes. -/
theorem c4_tokenContract_rejection_witness :
    (bytesOfString "peg").length < (PeggyDenomPrefix ++ PeggyDenomSeparator).length ∧
      PeggyDenom.TokenContract (bytesOfString "peg") =
        .error (.prefixMismatch (bytesOfString "peg")) ∧
      PeggyDenom.TokenContract (bytesOfString "peggy" ++ List.replicate 19 0) =
        .error (.badAddressLength ((bytesOfString "peggy" ++ List.replicate 19 0).drop
          (PeggyDenomPrefix ++ PeggyDenomSeparator).length)) :=
  ⟨by decide, (c4_tokenContract_rejection (bytesOfString "peg")).2.1 (by decide),
    (c4_tokenContract_rejection (bytesOfString "peggy" ++ List.replicate 19 0)).2.2 (by decide)
      (by decide)⟩

/-- C5: for every valid hex address string `s`, decoding the denomination
string `PREFIX || SEPARATOR || s` succeeds and returns the canonical byte
denomination re-encoded from the parsed address, and rendering that
denomination with `String` yields the denomination string with the address in
canonical (checksummed) hex case. -/
theorem c5_denom_string_roundtrip (s : List Nat) (h : ValidateEthAddress s = .ok ()) :
    NewPeggyDenomFromString (PeggyDenomPrefix ++ PeggyDenomSeparator ++ s) =
        .ok (NewPeggyDenom (HexToAddress s)) ∧
      PeggyDenom.String (NewPeggyDenom (HexToAddress s)) =
        PeggyDenomPrefix ++ PeggyDenomSeparator ++ (HexToAddress s).Hex := by
  constructor
  · simp only [NewPeggyDenomFromString, isPrefixOf_append_self, Bool.not_true,
      Bool.false_eq_true, if_false, ite_false, List.drop_left, h]
  · unfold PeggyDenom.String
    rw [tokenContract_newPeggyDenom (hexToAddress_bytes_length s)]
    rfl

/-- Witness for C5 at a concrete valid hex address string. -/
theorem c5_denom_string_roundtrip_witness :
    ValidateEthAddress (bytesOfString "0x5aaeb6053f3e94c9b9a09f33669435e7ef1beaed") = .ok () ∧
      (NewPeggyDenomFromString (PeggyDenomPrefix ++ PeggyDenomSeparator ++
          bytesOfString "0x5aaeb6053f3e94c9b9a09f33669435e7ef1beaed") =
        .ok (NewPeggyDenom (HexToAddress
          (bytesOfString "0x5aaeb6053f3e94c9b9a09f33669435e7ef1beaed"))) ∧
      PeggyDenom.String (NewPeggyDenom (HexToAddress
          (bytesOfString "0x5aaeb6053f3e94c9b9a09f33669435e7ef1beaed"))) =
        PeggyDenomPrefix ++ PeggyDenomSeparator ++
          (HexToAddress (bytesOfString "0x5aaeb6053f3e94c9b9a09f33669435e7ef1beaed")).Hex) :=
  ⟨by decide, c5_denom_string_roundtrip _ (by decide)⟩

/-- C6: the empty string fails with the empty-address error,
`"not-an-address"` fails with the malformed-address error, and every string
`0x` followed by 40 hex characters validates successfully. -/
theorem c6_validateEthAddress_cases :
    ValidateEthAddress [] = .error .emptyAddress ∧
      ValidateEthAddress (bytesOfString "not-an-address") =
        .error (.malformedAddress (bytesOfString "not-an-address")) ∧
      ∀ s : List Nat, s.length = 40 → (∀ c ∈ s, isHexCharacter c = true) →
        ValidateEthAddress (bytesOfString "0x" ++ s) = .ok () := by
  refine ⟨by decide, by decide, ?_⟩
  intro s hlen hhex
  have hadr : IsHexAddress (bytesOfString "0x" ++ s) = true := by
    rw [bytesOfString_0x]
    have hpre : has0xPrefix (48 :: 120 :: s) = true := by simp [has0xPrefix]
    simp only [IsHexAddress, List.cons_append, List.nil_append, hpre, if_true, ite_true,
      List.drop_succ_cons, List.drop_zero, hlen, isHex, AddressLength]
    simp only [Bool.and_eq_true, beq_iff_eq, List.all_eq_true]
    exact ⟨by decide, by decide, hhex⟩
  have hne : (bytesOfString "0x" ++ s) ≠ [] := by rw [bytesOfString_0x]; simp
  unfold ValidateEthAddress
  rw [if_neg hne, if_neg (by rw [hadr]; simp)]

/-- Witness for C6's universally quantified success clause at 40 `a`
characters. -/
theorem c6_validateEthAddress_cases_witness :
    (List.replicate 40 97).length = 40 ∧
      (∀ c ∈ List.replicate 40 97, isHexCharacter c = true) ∧
      ValidateEthAddress (bytesOfString "0x" ++ List.replicate 40 97) = .ok () :=
  ⟨by decide, by decide,
    c6_validateEthAddress_cases.2.2 (List.replicate 40 97) (by decide) (by decide)⟩

/-- C7: a token whose contract validates but whose amount is zero fails
`ValidateBasic` with the invalid-coins error; a token whose contract fails
`ValidateEthAddress` fails `ValidateBasic` with the wrapped invalid-address
error; and `ValidateBasic` succeeds only when the address is valid and the
derived coin is valid and strictly positive. -/
theorem c7_validateBasic_gate (e : ERC20Token) :
    (ValidateEthAddress e.Contract = .ok () → e.Amount = 0 →
      ERC20Token.ValidateBasic e = .error (.invalidCoins (ERC20Token.PeggyCoin e))) ∧
    (∀ err, ValidateEthAddress e.Contract = .error err →
      ERC20Token.ValidateBasic e = .error (.wrapEthereumAddress err)) ∧
    (ERC20Token.ValidateBasic e = .ok () →
      ValidateEthAddress e.Contract = .ok () ∧ (ERC20Token.PeggyCoin e).IsValid = true ∧
        (ERC20Token.PeggyCoin e).IsPositive = true) := by
  refine ⟨?_, ?_, ?_⟩
  · intro hok h0
    have hvd : ValidDenom (PeggyDenomString (HexToAddress e.Contract)) = true :=
      validDenom_peggyDenomString (hexToAddress_bytes_length e.Contract) hexToAddress_bytes_lt
    have hvalid : (ERC20Token.PeggyCoin e).IsValid = true := by
      simp only [Coin.IsValid, ERC20Token.PeggyCoin, NewCoin, hvd, h0, Bool.and_eq_true,
        decide_eq_true_eq]
      exact ⟨trivial, le_refl 0⟩
    have hpos : (ERC20Token.PeggyCoin e).IsPositive = false := by
      simp [Coin.IsPositive, ERC20Token.PeggyCoin, NewCoin, h0]
    unfold ERC20Token.ValidateBasic
    rw [hok, hvalid, hpos]
    simp
  · intro err herr
    unfold ERC20Token.ValidateBasic
    rw [herr]
  · intro hok
    unfold ERC20Token.ValidateBasic at hok
    cases hva : ValidateEthAddress e.Contract with
    | error err => rw [hva] at hok; exact absurd hok (by simp)
    | ok u =>
      cases u
      rw [hva] at hok
      refine ⟨rfl, ?_⟩
      by_cases hv : (ERC20Token.PeggyCoin e).IsValid = true
      · rw [hv] at hok
        by_cases hp : (ERC20Token.PeggyCoin e).IsPositive = true
        · exact ⟨hv, hp⟩
        · rw [Bool.not_eq_true] at hp
          rw [hp] at hok
          exact absurd hok (by simp)
      · rw [Bool.not_eq_true] at hv
        rw [hv] at hok
        exact absurd hok (by simp)

/-- Witness for C7: a zero amount on a valid contract, and an empty contract
string. -/
theorem c7_validateBasic_gate_witness :
    ERC20Token.ValidateBasic
        ⟨0, bytesOfString "0x5aaeb6053f3e94c9b9a09f33669435e7ef1beaed"⟩ =
      .error (.invalidCoins (ERC20Token.PeggyCoin
        ⟨0, bytesOfString "0x5aaeb6053f3e94c9b9a09f33669435e7ef1beaed"⟩)) ∧
    ERC20Token.ValidateBasic ⟨1, []⟩ = .error (.wrapEthereumAddress .emptyAddress) :=
  ⟨(c7_validateBasic_gate ⟨0, bytesOfString "0x5aaeb6053f3e94c9b9a09f33669435e7ef1beaed"⟩).1
      (by decide) rfl,
    (c7_validateBasic_gate ⟨1, []⟩).2.1 .emptyAddress (by decide)⟩

/-- C8: the exposed comparison is byte-lexicographic and a strict total
order: `EthAddrLessThan a b` holds exactly when `a` precedes `b`
lexicographically, in which case the underlying three-way comparison returns
`-1` on `(a, b)` and `1` on `(b, a)`; the order is asymmetric, transitive and
total on distinct strings. -/
theorem c8_ethAddrLessThan_order (a b c : List Nat) :
    (EthAddrLessThan a b = true ↔ List.Lex (· < ·) a b) ∧
    (EthAddrLessThan a b = true → bytesCompare a b = -1 ∧ bytesCompare b a = 1) ∧
    (EthAddrLessThan a b = true → EthAddrLessThan b a = false) ∧
    (EthAddrLessThan a b = true → EthAddrLessThan b c = true → EthAddrLessThan a c = true) ∧
    (a ≠ b → EthAddrLessThan a b = true ∨ EthAddrLessThan b a = true) := by
  refine ⟨ethAddrLessThan_iff.trans (bytesCompare_eq_lex a b), ?_, ?_, ?_, ?_⟩
  · intro h
    have hab := ethAddrLessThan_iff.1 h
    exact ⟨hab, by rw [bytesCompare_swap, hab]; rfl⟩
  · intro h
    have hab := ethAddrLessThan_iff.1 h
    have : bytesCompare b a = 1 := by rw [bytesCompare_swap, hab]; rfl
    simp [EthAddrLessThan, this]
  · intro hab hbc
    have h1 := (bytesCompare_eq_lex a b).1 (ethAddrLessThan_iff.1 hab)
    have h2 := (bytesCompare_eq_lex b c).1 (ethAddrLessThan_iff.1 hbc)
    exact ethAddrLessThan_iff.2 ((bytesCompare_eq_lex a c).2 (IsTrans.trans a b c h1 h2))
  · intro hne
    rcases bytesCompare_cases a b with h | h | h
    · exact Or.inl (ethAddrLessThan_iff.2 h)
    · exact absurd (bytesCompare_eq_zero.1 h) hne
    · refine Or.inr (ethAddrLessThan_iff.2 ?_)
      rw [bytesCompare_swap, h]

/-- Witness for C8 on the concrete strings `[0]`, `[0, 1]` and `[1]`. -/
theorem c8_ethAddrLessThan_order_witness :
    (bytesCompare [0] [0, 1] = -1 ∧ bytesCompare [0, 1] [0] = 1) ∧
      EthAddrLessThan [0, 1] [0] = false ∧
      EthAddrLessThan [0] [1] = true ∧
      (EthAddrLessThan [0] [0, 1] = true ∨ EthAddrLessThan [0, 1] [0] = true) :=
  ⟨(c8_ethAddrLessThan_order [0] [0, 1] [1]).2.1 (by decide),
    (c8_ethAddrLessThan_order [0] [0, 1] [1]).2.2.1 (by decide),
    (c8_ethAddrLessThan_order [0] [0, 1] [1]).2.2.2.1 (by decide) (by decide),
    (c8_ethAddrLessThan_order [0] [0, 1] [1]).2.2.2.2 (by decide)⟩

/-- C9: every token returned successfully by `Add` carries an amount that is
non-negative and below `2 ^ 64`, whatever the operands' amounts were — the
`IsUint64` guard rejects negative and oversized sums before the narrowing. -/
theorem c9_add_result_uint64 (e o r : ERC20Token) (h : ERC20Token.Add e o = .ok r) :
    0 ≤ r.Amount ∧ r.Amount < 2 ^ 64 := by
  simp only [ERC20Token.Add] at h
  by_cases hc : e.Contract ≠ o.Contract
  · rw [if_pos hc] at h
    exact absurd h (by simp)
  · rw [if_neg hc] at h
    by_cases hu : (!intIsUint64 (e.Amount + o.Amount)) = true
    · rw [if_pos hu] at h
      exact absurd h (by simp)
    · rw [if_neg hu] at h
      simp only [Except.ok.injEq] at h
      subst h
      have hu' : intIsUint64 (e.Amount + o.Amount) = true := by
        revert hu
        cases intIsUint64 (e.Amount + o.Amount) <;> simp
      have hsum : 0 ≤ e.Amount + o.Amount ∧ e.Amount + o.Amount < 2 ^ 64 := by
        simpa only [intIsUint64, Bool.and_eq_true, decide_eq_true_eq] using hu'
      refine ⟨Int.natCast_nonneg _, ?_⟩
      simp only [NewERC20Token]
      rw [Int.toNat_of_nonneg hsum.1]
      exact hsum.2

/-- Witness for C9 at operands whose first amount is negative. -/
theorem c9_add_result_uint64_witness :
    0 ≤ (NewERC20Token (Int.toNat (-5 + 7)) (HexToAddress (bytesOfString "c"))).Amount ∧
      (NewERC20Token (Int.toNat (-5 + 7)) (HexToAddress (bytesOfString "c"))).Amount < 2 ^ 64 :=
  c9_add_result_uint64 ⟨-5, bytesOfString "c"⟩ ⟨7, bytesOfString "c"⟩
    (NewERC20Token (Int.toNat (-5 + 7)) (HexToAddress (bytesOfString "c"))) rfl

/-- C10: `PeggyCoin` never fails or rejects on account of the contract
field — for every token it returns the coin whose denomination is built from
the lossy hex parse of the stored contract string, the parsed address is a
well-formed 20-byte address, the resulting peggy denomination satisfies the
coin-denom grammar and validates as a hex address, and any token with a
non-negative amount yields a valid coin even when `ValidateEthAddress` would
reject its contract string. -/
theorem c10_peggyCoin_lossy (e : ERC20Token) :
    ERC20Token.PeggyCoin e = NewCoin (PeggyDenomString (HexToAddress e.Contract)) e.Amount ∧
    (HexToAddress e.Contract).bytes.length = 20 ∧
    ValidDenom (PeggyDenomString (HexToAddress e.Contract)) = true ∧
    ValidateEthAddress ((HexToAddress e.Contract).Hex) = .ok () ∧
    (0 ≤ e.Amount → (ERC20Token.PeggyCoin e).IsValid = true) := by
  have hvd : ValidDenom (PeggyDenomString (HexToAddress e.Contract)) = true :=
    validDenom_peggyDenomString (hexToAddress_bytes_length e.Contract) hexToAddress_bytes_lt
  refine ⟨rfl, hexToAddress_bytes_length e.Contract, hvd,
    validateEthAddress_hex (hexToAddress_bytes_length e.Contract) hexToAddress_bytes_lt, ?_⟩
  intro h0
  simp only [Coin.IsValid, ERC20Token.PeggyCoin, NewCoin, hvd, Bool.and_eq_true,
    decide_eq_true_eq]
  exact ⟨trivial, h0⟩

/-- Witness for C10 at a token whose contract string is not a valid hex
address. -/
theorem c10_peggyCoin_lossy_witness :
    ValidDenom (PeggyDenomString (HexToAddress (bytesOfString "not-an-address"))) = true ∧
      (ERC20Token.PeggyCoin ⟨3, bytesOfString "not-an-address"⟩).IsValid = true :=
  ⟨(c10_peggyCoin_lossy ⟨3, bytesOfString "not-an-address"⟩).2.2.1,
    (c10_peggyCoin_lossy ⟨3, bytesOfString "not-an-address"⟩).2.2.2.2 (by decide)⟩

end Peggy
